import Mathlib

/-! Overview.

Verification of the audio/session pipeline of the multimodal live-chat
front end (src/src/app/page.tsx, src/src/components/gemini/GeminiContext.tsx,
src/src/components/gemini/AvatarDisplay.tsx, src/unnamed/part_000).

The browser code is single-threaded and event-driven; each JavaScript
callback runs to completion before the next one starts.  We therefore embed
each component as a state machine whose steps are the callbacks of the
source, and prove properties of runs (lists of events folded over the
initial state).
-/

namespace Spec2Proof

/-! Part: Playback queue

Embedding of `enqueueAudio` / `playNext` from src/src/app/page.tsx
(lines 234-260), which is structurally identical to `handleAudio` /
`playNext` in src/src/components/gemini/AvatarDisplay.tsx (lines 77-156)
and to `enqueueAudio` / `playNext` in src/unnamed/part_000 (lines 133-171).

State components of the source:
* `audioQueue`      — the `this.audioQueue` / `playQueueRef.current` array;
* `isPlayingAudio`  — the `this.isPlayingAudio` / `isPlayingRef.current` flag;
* `playingSources`  — the buffer-source nodes that have been `start()`ed and
  whose `onended` has not fired yet (implicit in the browser audio graph);
* `started`         — history of chunks whose playback has started, in order
  (a ghost log used to state FIFO order).
-/

structure PlaybackState (α : Type) where
  audioQueue : List α
  isPlayingAudio : Bool
  playingSources : List α
  started : List α
  deriving Repr, DecidableEq

def initPlayback (α : Type) : PlaybackState α :=
  { audioQueue := [], isPlayingAudio := false, playingSources := [], started := [] }

/-- Source: `playNext` (page.tsx lines 239-260): if the queue is empty, clear the
playing flag and idle; otherwise set the flag, shift the head chunk off the
queue, and start a buffer source playing it (the started source is appended
to `playingSources` and logged in `started`). -/
def playNext {α : Type} (s : PlaybackState α) : PlaybackState α :=
  match s.audioQueue with
  | [] => { s with isPlayingAudio := false }
  | buf :: rest =>
      { s with
        isPlayingAudio := true
        audioQueue := rest
        playingSources := s.playingSources ++ [buf]
        started := s.started ++ [buf] }

/-- Source: `enqueueAudio` (page.tsx lines 234-237): push the chunk on the tail of
the queue; start playback via `playNext` only when nothing is playing. -/
def enqueueAudio {α : Type} (buf : α) (s : PlaybackState α) : PlaybackState α :=
  let s1 := { s with audioQueue := s.audioQueue ++ [buf] }
  if s1.isPlayingAudio then s1 else playNext s1

/-- The `onended` callback of the currently playing source
(page.tsx line 258 `src.onended = () => this.playNext()`): the source that
finished is removed from the set of live sources and `playNext` runs.  If no
source is live the event cannot fire and the state is unchanged. -/
def onEnded {α : Type} (s : PlaybackState α) : PlaybackState α :=
  match s.playingSources with
  | [] => s
  | _ :: rest => playNext { s with playingSources := rest }

inductive PlaybackEvent (α : Type) where
  | enqueue (buf : α)
  | ended
  deriving Repr, DecidableEq

/-- The only events that touch the queue: an incoming chunk (`enqueueAudio`)
and the end-of-playback callback (`onended`).  No timer-driven dequeue
exists in the source. -/
def playbackStep {α : Type} (s : PlaybackState α) : PlaybackEvent α → PlaybackState α
  | .enqueue buf => enqueueAudio buf s
  | .ended => onEnded s

def playbackRun {α : Type} (events : List (PlaybackEvent α)) : PlaybackState α :=
  events.foldl playbackStep (initPlayback α)

/-- The chunks enqueued by a list of events, in arrival order. -/
def enqueuedOf {α : Type} (events : List (PlaybackEvent α)) : List α :=
  events.filterMap (fun e => match e with | .enqueue b => some b | .ended => none)

theorem playNext_trace {α : Type} (s : PlaybackState α) :
    (playNext s).started ++ (playNext s).audioQueue = s.started ++ s.audioQueue := by
  cases h : s.audioQueue with
  | nil => simp [playNext, h]
  | cons b rest => simp [playNext, h]

theorem playbackStep_trace {α : Type} (s : PlaybackState α) (e : PlaybackEvent α) :
    (playbackStep s e).started ++ (playbackStep s e).audioQueue =
      s.started ++ s.audioQueue ++
        (match e with | .enqueue b => [b] | .ended => []) := by
  cases e with
  | enqueue b =>
      simp only [playbackStep, enqueueAudio]
      by_cases h : s.isPlayingAudio
      · simp [h]
      · simp [h, playNext_trace]
  | ended =>
      simp only [playbackStep, onEnded]
      cases h : s.playingSources with
      | nil => simp
      | cons c rest => simp [playNext_trace]

/-- The central trace invariant of the queue: chunks already started,
followed by chunks still queued, is exactly the list of chunks enqueued so
far, in arrival order. -/
theorem playbackRun_trace {α : Type} (events : List (PlaybackEvent α)) :
    (playbackRun events).started ++ (playbackRun events).audioQueue = enqueuedOf events := by
  suffices h : ∀ (s : PlaybackState α),
      (events.foldl playbackStep s).started ++ (events.foldl playbackStep s).audioQueue =
        s.started ++ s.audioQueue ++ enqueuedOf events by
    simpa [playbackRun, initPlayback] using h (initPlayback α)
  induction events with
  | nil => intro s; simp [enqueuedOf]
  | cons e rest ih =>
      intro s
      have hstep := playbackStep_trace s e
      cases e with
      | enqueue b =>
          simp only [List.foldl_cons, enqueuedOf, List.filterMap_cons] at *
          rw [ih (playbackStep s (.enqueue b)), hstep]
          simp [enqueuedOf]
      | ended =>
          simp only [List.foldl_cons, enqueuedOf, List.filterMap_cons] at *
          rw [ih (playbackStep s .ended), hstep]
          simp [enqueuedOf]

/-- Reachable-state invariant for the one-at-a-time property: at most one
source is live, and the playing flag mirrors source liveness. -/
def PlayInv {α : Type} (s : PlaybackState α) : Prop :=
  s.playingSources.length ≤ 1 ∧ (s.isPlayingAudio = true ↔ s.playingSources ≠ [])

theorem playInv_init (α : Type) : PlayInv (initPlayback α) := by
  constructor <;> simp [initPlayback]

theorem playInv_playNext {α : Type} (s : PlaybackState α)
    (hsrc : s.playingSources = []) : PlayInv (playNext s) := by
  cases h : s.audioQueue with
  | nil => constructor <;> simp [playNext, h, hsrc]
  | cons b rest => constructor <;> simp [playNext, h, hsrc]

theorem playInv_step {α : Type} (s : PlaybackState α) (e : PlaybackEvent α)
    (hs : PlayInv s) : PlayInv (playbackStep s e) := by
  obtain ⟨hlen, hiff⟩ := hs
  cases e with
  | enqueue b =>
      simp only [playbackStep, enqueueAudio]
      by_cases h : s.isPlayingAudio
      · simp only [h, if_pos]
        refine ⟨hlen, ?_⟩
        simpa using hiff.mp h
      · simp only [h]
        have hsrc : s.playingSources = [] := by
          by_contra hne
          exact h (hiff.mpr hne)
        simp only [Bool.false_eq_true, if_neg, ite_false]
        exact playInv_playNext _ hsrc
  | ended =>
      simp only [playbackStep, onEnded]
      cases h : s.playingSources with
      | nil => exact ⟨by simp [h], by simpa [h] using hiff⟩
      | cons c rest =>
          have hrest : rest = [] := by
            have := hlen
            rw [h] at this
            simpa using this
          exact playInv_playNext _ (by simp [hrest])

theorem playInv_run {α : Type} (events : List (PlaybackEvent α)) :
    PlayInv (playbackRun events) := by
  suffices h : ∀ (s : PlaybackState α), PlayInv s → PlayInv (events.foldl playbackStep s) from
    h (initPlayback α) (playInv_init α)
  induction events with
  | nil => intro s hs; exact hs
  | cons e rest ih => intro s hs; exact ih _ (playInv_step s e hs)

/-- C1: The playback queue is strictly FIFO.  Over every sequence of
enqueue / end-of-playback events (the only events touching the queue — no
timer exists in the source), the chunks whose playback has started, followed
by the chunks still queued, equal the enqueued chunks in arrival order;
hence the playback order is a prefix of the enqueue order, playback is in
order and gapless (each `onended` immediately dequeues the next head), and
the one-at-a-time flag discipline of `PlayInv` rules out overlap. -/
theorem playback_queue_fifo {α : Type} (events : List (PlaybackEvent α)) :
    (playbackRun events).started ++ (playbackRun events).audioQueue = enqueuedOf events ∧
      (playbackRun events).started <+: enqueuedOf events := by
  refine ⟨playbackRun_trace events, ?_⟩
  exact ⟨(playbackRun events).audioQueue, playbackRun_trace events⟩

/-- C2: While a chunk is playing, `enqueueAudio` only appends to the tail —
it starts no new playback (live sources and the started log are unchanged) —
and in every reachable state at most one audio source is live. -/
theorem enqueue_no_second_playback {α : Type} (events : List (PlaybackEvent α)) (buf : α) :
    (playbackRun events).playingSources.length ≤ 1 ∧
      ((playbackRun events).isPlayingAudio = true →
        (enqueueAudio buf (playbackRun events)).playingSources =
            (playbackRun events).playingSources ∧
          (enqueueAudio buf (playbackRun events)).started = (playbackRun events).started ∧
          (enqueueAudio buf (playbackRun events)).audioQueue =
            (playbackRun events).audioQueue ++ [buf]) := by
  refine ⟨(playInv_run events).1, fun hplay => ?_⟩
  refine ⟨?_, ?_, ?_⟩ <;> simp [enqueueAudio, hplay]

/-- Witness for C2 at a concrete run: after one enqueue the flag is set, and
a second enqueue while playing leaves the live sources unchanged. -/
theorem enqueue_no_second_playback_witness :
    (playbackRun [PlaybackEvent.enqueue 0]).isPlayingAudio = true ∧
      (enqueueAudio 1 (playbackRun [PlaybackEvent.enqueue 0])).playingSources =
        (playbackRun [PlaybackEvent.enqueue 0]).playingSources := by
  have h := enqueue_no_second_playback (α := ℕ) [PlaybackEvent.enqueue 0] 1
  exact ⟨by decide, (h.2 (by decide)).1⟩

/-! Part: Capture worklet

Embedding of the `AudioProcessor` worklet of
src/src/components/gemini/GeminiContext.tsx (lines 109-149) — the same code,
minified, is in src/src/app/page.tsx (lines 163-174).  Two views of the same
source are used:

* a *counting* view (`Worklet.CountState`), faithful to the index arithmetic
  of `process`/`flush` with the resample ratio as an exact rational
  (float rounding ignored, as everywhere in this embedding);
* a *content* view (`Worklet.ContentState`), tracking the buffered samples as
  a list, for the rates where `bufferSize * resampleRatio` is an integer
  (e.g. a 48000 Hz device: `4096 * 48000/16000 = 12288`), so that the
  `copyWithin`/index update of `flush` is exactly `List.drop`.
-/

def TARGET_SAMPLE_RATE : ℕ := 16000
def WORKLET_BUFFER_SIZE : ℕ := 4096

namespace Worklet

/-- Source: `this._buffer = new Float32Array(this.bufferSize * 4)`. -/
def capacity : ℕ := WORKLET_BUFFER_SIZE * 4

/-- Source: `this.bufferSize * this.resampleRatio` where
`this.resampleRatio = this.sampleRate / this.targetSampleRate`. -/
def theta (R : ℕ) : ℚ := (WORKLET_BUFFER_SIZE : ℚ) * R / TARGET_SAMPLE_RATE

/-- Counting view of the worklet.  The source's write index `this._index`
becomes fractional after a flush whenever the resample ratio is not an
integer; to keep the state exactly computable we store
`idxT = _index * TARGET_SAMPLE_RATE`, which every operation of the source
keeps an integer (chunks add `len * T`, a flush subtracts
`bufferSize * ratio * T = bufferSize * R`).  `CountState.index` recovers the
source's `_index`. -/
structure CountState where
  /-- Source: `this._index * TARGET_SAMPLE_RATE` (exact integer scaling). -/
  idxT : ℤ
  /-- total number of input samples accumulated into the buffer. -/
  accepted : ℕ
  /-- total number of input samples delivered to `process`. -/
  totalInput : ℕ
  /-- total number of output samples posted (frames of `bufferSize`). -/
  emitted : ℕ
  /-- number of `flush` calls so far. -/
  flushes : ℕ
  /-- whether some delivered chunk failed the capacity test and was skipped. -/
  droppedAny : Bool
  deriving Repr, DecidableEq

/-- The source's `this._index`, as an exact rational. -/
def CountState.index (s : CountState) : ℚ := (s.idxT : ℚ) / TARGET_SAMPLE_RATE

def initCount : CountState :=
  { idxT := 0, accepted := 0, totalInput := 0, emitted := 0, flushes := 0,
    droppedAny := false }

/-- Source: `flush()` (GeminiContext.tsx lines 131-146): emits one
`bufferSize`-sample frame and rewinds the index by
`bufferSize * resampleRatio` (scaled: `idxT` drops by `bufferSize * R`). -/
def flushCount (R : ℕ) (s : CountState) : CountState :=
  { s with
    idxT := s.idxT - ((WORKLET_BUFFER_SIZE * R : ℕ) : ℤ)
    emitted := s.emitted + WORKLET_BUFFER_SIZE
    flushes := s.flushes + 1 }

/-- First half of `process(inputs)` (lines 121-127): the chunk is copied in
only when `this._index + c.length <= this._buffer.length` (scaled by `T`);
otherwise it is skipped. -/
def acceptChunk (len : ℕ) (s : CountState) : CountState :=
  if s.idxT + ((len * TARGET_SAMPLE_RATE : ℕ) : ℤ) ≤ ((capacity * TARGET_SAMPLE_RATE : ℕ) : ℤ) then
    { s with
      idxT := s.idxT + ((len * TARGET_SAMPLE_RATE : ℕ) : ℤ)
      accepted := s.accepted + len
      totalInput := s.totalInput + len }
  else
    { s with totalInput := s.totalInput + len, droppedAny := true }

/-- Second half of `process` (line 128):
`if (this._index >= this.bufferSize * this.resampleRatio) this.flush()`
(scaled by `T`: `idxT >= bufferSize * R`). -/
def maybeFlush (R : ℕ) (s : CountState) : CountState :=
  if ((WORKLET_BUFFER_SIZE * R : ℕ) : ℤ) ≤ s.idxT then flushCount R s else s

def processCount (R : ℕ) (len : ℕ) (s : CountState) : CountState :=
  maybeFlush R (acceptChunk len s)

def runCount (R : ℕ) (chunks : List ℕ) : CountState :=
  chunks.foldl (fun s len => processCount R len s) initCount

/-- Inductive invariant of the counting view: emitted samples come in whole
frames, the accepted input equals the buffered index plus the input consumed
by the flushes so far (scaled by `T`), and while nothing has been dropped the
accepted input is all the input. -/
def CountInv (R : ℕ) (s : CountState) : Prop :=
  s.emitted = WORKLET_BUFFER_SIZE * s.flushes ∧
    ((s.accepted * TARGET_SAMPLE_RATE : ℕ) : ℤ) =
      s.idxT + (s.flushes * (WORKLET_BUFFER_SIZE * R) : ℕ) ∧
    (s.droppedAny = false → s.accepted = s.totalInput)

theorem countInv_init (R : ℕ) : CountInv R initCount := by
  refine ⟨rfl, ?_, fun _ => rfl⟩
  simp [initCount]

theorem countInv_flush (R : ℕ) (s : CountState) (hs : CountInv R s) :
    CountInv R (flushCount R s) := by
  obtain ⟨h1, h2, h3⟩ := hs
  refine ⟨?_, ?_, h3⟩
  · simp only [flushCount, h1]; ring
  · simp only [flushCount]
    push_cast at h2 ⊢
    linarith [h2]

theorem countInv_accept (R : ℕ) (len : ℕ) (s : CountState) (hs : CountInv R s) :
    CountInv R (acceptChunk len s) := by
  obtain ⟨h1, h2, h3⟩ := hs
  unfold acceptChunk
  by_cases hfit : s.idxT + ((len * TARGET_SAMPLE_RATE : ℕ) : ℤ) ≤
      ((capacity * TARGET_SAMPLE_RATE : ℕ) : ℤ)
  · simp only [hfit, if_pos]
    refine ⟨h1, ?_, fun hd => by rw [h3 hd]⟩
    push_cast at h2 ⊢
    linarith [h2]
  · simp only [hfit, if_neg, ite_false]
    exact ⟨h1, h2, fun hd => by simp at hd⟩

theorem countInv_process (R : ℕ) (len : ℕ) (s : CountState) (hs : CountInv R s) :
    CountInv R (processCount R len s) := by
  unfold processCount maybeFlush
  by_cases h : ((WORKLET_BUFFER_SIZE * R : ℕ) : ℤ) ≤ (acceptChunk len s).idxT
  · simp only [h, if_pos]
    exact countInv_flush R _ (countInv_accept R len s hs)
  · simp only [h, if_neg, ite_false]
    exact countInv_accept R len s hs

theorem countInv_run (R : ℕ) (chunks : List ℕ) : CountInv R (runCount R chunks) := by
  suffices h : ∀ s : CountState, CountInv R s →
      CountInv R (chunks.foldl (fun s len => processCount R len s) s) from
    h initCount (countInv_init R)
  induction chunks with
  | nil => intro s hs; exact hs
  | cons len rest ih => intro s hs; exact ih _ (countInv_process R len s hs)

end Worklet

/-- C3: each `flush` of the capture worklet's resampler consumes
`bufferSize * (R/T)` buffered input samples (the index drops by `theta R`)
and emits exactly `bufferSize = 4096` output samples; over any run in which
no chunk was dropped, the cumulative output count equals `⌊N * T / R⌋` up to
the retained partial frame: `⌊N * T / R⌋ = emitted + ⌊index * T / R⌋`, with
`N` the total input sample count and `index` the retained buffered input. -/
theorem resampler_output_count (R : ℕ) (hR : 0 < R) (chunks : List ℕ) :
    (∀ s : Worklet.CountState,
        (Worklet.flushCount R s).index = s.index - Worklet.theta R ∧
          (Worklet.flushCount R s).emitted = s.emitted + WORKLET_BUFFER_SIZE) ∧
      (Worklet.runCount R chunks).emitted =
        WORKLET_BUFFER_SIZE * (Worklet.runCount R chunks).flushes ∧
      ((Worklet.runCount R chunks).accepted : ℚ) =
        (Worklet.runCount R chunks).index +
          (Worklet.runCount R chunks).flushes * Worklet.theta R ∧
      ((Worklet.runCount R chunks).droppedAny = false →
        ⌊((Worklet.runCount R chunks).totalInput : ℚ) * (TARGET_SAMPLE_RATE : ℚ) / (R : ℚ)⌋ =
          (Worklet.runCount R chunks).emitted +
            ⌊(Worklet.runCount R chunks).index * (TARGET_SAMPLE_RATE : ℚ) / (R : ℚ)⌋) := by
  have hT : (TARGET_SAMPLE_RATE : ℚ) ≠ 0 := by norm_num [TARGET_SAMPLE_RATE]
  have hR' : (R : ℚ) ≠ 0 := Nat.cast_ne_zero.mpr hR.ne'
  obtain ⟨h1, h2, h3⟩ := Worklet.countInv_run R chunks
  refine ⟨fun s => ⟨?_, rfl⟩, h1, ?_, fun hd => ?_⟩
  · unfold Worklet.CountState.index Worklet.flushCount Worklet.theta
    push_cast
    field_simp
  · set s := Worklet.runCount R chunks with hs
    unfold Worklet.CountState.index Worklet.theta
    have h2q : (s.accepted : ℚ) * (TARGET_SAMPLE_RATE : ℚ) =
        (s.idxT : ℚ) + (s.flushes : ℚ) * ((WORKLET_BUFFER_SIZE : ℚ) * (R : ℚ)) := by
      have hq := congrArg (fun z : ℤ => (z : ℚ)) h2
      push_cast at hq
      linarith [hq]
    field_simp
    linear_combination h2q
  · set s := Worklet.runCount R chunks with hs
    have hacc : ((s.totalInput * TARGET_SAMPLE_RATE : ℕ) : ℤ) =
        s.idxT + (s.flushes * (WORKLET_BUFFER_SIZE * R) : ℕ) := by
      rw [← h3 hd]; exact h2
    have hkey : (s.totalInput : ℚ) * (TARGET_SAMPLE_RATE : ℚ) / (R : ℚ) =
        s.index * (TARGET_SAMPLE_RATE : ℚ) / (R : ℚ) + (s.emitted : ℕ) := by
      unfold Worklet.CountState.index
      rw [h1]
      have hacc' : (s.totalInput : ℚ) * (TARGET_SAMPLE_RATE : ℚ) =
          (s.idxT : ℚ) + (s.flushes : ℚ) * ((WORKLET_BUFFER_SIZE : ℚ) * (R : ℚ)) := by
        have := congrArg (fun z : ℤ => (z : ℚ)) hacc
        push_cast at this
        linarith [this]
      field_simp
      linarith [hacc']
    rw [hkey, Int.floor_add_nat]
    omega

/-- Witness for C3 on a concrete run: a 48000 Hz device delivering 12288
input samples triggers exactly one flush, so 4096 output samples are emitted
and `⌊12288 * 16000 / 48000⌋ = 4096 + ⌊0⌋`. -/
theorem resampler_output_count_witness :
    (0 : ℕ) < 48000 ∧ (Worklet.runCount 48000 [12288]).droppedAny = false ∧
      ⌊((Worklet.runCount 48000 [12288]).totalInput : ℚ) * (TARGET_SAMPLE_RATE : ℚ) /
            ((48000 : ℕ) : ℚ)⌋ =
        (Worklet.runCount 48000 [12288]).emitted +
          ⌊(Worklet.runCount 48000 [12288]).index * (TARGET_SAMPLE_RATE : ℚ) /
            ((48000 : ℕ) : ℚ)⌋ := by
  refine ⟨by decide, by decide, ?_⟩
  exact (resampler_output_count 48000 (by decide) [12288]).2.2.2 (by decide)

/-! Part: Content view of the worklet buffer

For sample rates where `bufferSize * resampleRatio` is a natural number
`θ` (e.g. `θ = 12288` at 48000 Hz), `flush`'s
`copyWithin(0, θ, _index); _index -= θ` is exactly `List.drop θ` on the live
region `_buffer[0.._index)`, and `process`'s `set(c, _index); _index += len`
is list append.  `cap = bufferSize * 4` is the buffer capacity. -/

namespace Worklet

structure ContentState (α : Type) where
  /-- the live region `this._buffer[0 .. this._index)`. -/
  buf : List α
  /-- input samples consumed by flushes so far, in order (ghost log). -/
  consumed : List α
  /-- all samples accumulated into the buffer so far, in order (ghost log). -/
  accepted : List α
  flushes : ℕ
  lastWasFlush : Bool
  deriving Repr, DecidableEq

def initContent (α : Type) : ContentState α :=
  { buf := [], consumed := [], accepted := [], flushes := 0, lastWasFlush := false }

/-- Source: `flush()`: the first `θ` buffered samples are consumed by the emitted
frame; `copyWithin(0, θ, _index)` moves the unconsumed samples to the front
and `_index -= θ` shrinks the live region accordingly. -/
def flushContent {α : Type} (θ : ℕ) (s : ContentState α) : ContentState α :=
  { s with
    buf := s.buf.drop θ
    consumed := s.consumed ++ s.buf.take θ
    flushes := s.flushes + 1
    lastWasFlush := true }

/-- First half of `process`: append the chunk when it fits, else skip it. -/
def acceptContent {α : Type} (cap : ℕ) (c : List α) (s : ContentState α) : ContentState α :=
  if s.buf.length + c.length ≤ cap then
    { s with buf := s.buf ++ c, accepted := s.accepted ++ c, lastWasFlush := false }
  else
    { s with lastWasFlush := false }

/-- Source: `process`: accept the chunk, then flush once if the index reached `θ`. -/
def processContent {α : Type} (θ cap : ℕ) (c : List α) (s : ContentState α) : ContentState α :=
  if θ ≤ (acceptContent cap c s).buf.length then flushContent θ (acceptContent cap c s)
  else acceptContent cap c s

def runContent {α : Type} (θ cap : ℕ) (chunks : List (List α)) : ContentState α :=
  chunks.foldl (fun s c => processContent θ cap c s) (initContent α)

/-- Inductive invariant of the content view: consumed and buffered samples
partition the accepted input in order; each flush consumed exactly `θ`
samples; the buffer never exceeds the capacity; and right after a flush at
least `θ` samples of headroom remain. -/
def ContentInv {α : Type} (θ cap : ℕ) (s : ContentState α) : Prop :=
  s.consumed ++ s.buf = s.accepted ∧
    s.consumed.length = θ * s.flushes ∧
    s.buf.length ≤ cap ∧
    (s.lastWasFlush = true → s.buf.length + θ ≤ cap)

theorem contentInv_init {α : Type} (θ cap : ℕ) : ContentInv θ cap (initContent α) := by
  refine ⟨rfl, by simp [initContent], by simp [initContent], ?_⟩
  simp [initContent]

theorem contentInv_process {α : Type} (θ cap : ℕ) (c : List α) (s : ContentState α)
    (hs : ContentInv θ cap s) : ContentInv θ cap (processContent θ cap c s) := by
  obtain ⟨h1, h2, h3, _⟩ := hs
  have haccept : ContentInv θ cap (acceptContent cap c s) ∧
      (acceptContent cap c s).buf.length ≤ cap := by
    unfold acceptContent
    by_cases hfit : s.buf.length + c.length ≤ cap
    · simp only [hfit, if_pos]
      refine ⟨⟨?_, h2, by simpa using hfit, by simp⟩, by simpa using hfit⟩
      simp [← h1]
    · simp only [hfit, if_neg, ite_false]
      exact ⟨⟨h1, h2, h3, by simp⟩, h3⟩
  obtain ⟨⟨g1, g2, g3, _⟩, gcap⟩ := haccept
  unfold processContent
  by_cases hθ : θ ≤ (acceptContent cap c s).buf.length
  · simp only [hθ, if_pos]
    refine ⟨?_, ?_, ?_, ?_⟩
    · simp only [flushContent]
      rw [List.append_assoc, List.take_append_drop, g1]
    · simp only [flushContent, List.length_append, g2, List.length_take]
      have : min θ (acceptContent cap c s).buf.length = θ := Nat.min_eq_left hθ
      rw [this]; ring
    · simp only [flushContent, List.length_drop]
      omega
    · intro _
      simp only [flushContent, List.length_drop]
      omega
  · simp only [hθ, if_neg, ite_false]
    exact ⟨g1, g2, g3, fun hlf => by
      unfold acceptContent at hlf ⊢
      by_cases hfit : s.buf.length + c.length ≤ cap <;> simp [hfit] at hlf⟩

theorem contentInv_run {α : Type} (θ cap : ℕ) (chunks : List (List α)) :
    ContentInv θ cap (runContent θ cap chunks) := by
  suffices h : ∀ s : ContentState α, ContentInv θ cap s →
      ContentInv θ cap (chunks.foldl (fun s c => processContent θ cap c s) s) from
    h (initContent α) (contentInv_init θ cap)
  induction chunks with
  | nil => intro s hs; exact hs
  | cons c rest ih => intro s hs; exact ih _ (contentInv_process θ cap c s hs)

/-- The ghost logs only grow and the flush counter only increases. -/
theorem contentStep_mono {α : Type} (θ cap : ℕ) (c : List α) (s : ContentState α) :
    s.consumed <+: (processContent θ cap c s).consumed ∧
      s.accepted <+: (processContent θ cap c s).accepted ∧
      s.flushes ≤ (processContent θ cap c s).flushes := by
  have haccept : s.consumed <+: (acceptContent cap c s).consumed ∧
      s.accepted <+: (acceptContent cap c s).accepted ∧
      s.flushes ≤ (acceptContent cap c s).flushes := by
    unfold acceptContent
    by_cases hfit : s.buf.length + c.length ≤ cap <;>
      simp [hfit, List.prefix_append]
  obtain ⟨a1, a2, a3⟩ := haccept
  unfold processContent
  by_cases hθ : θ ≤ (acceptContent cap c s).buf.length
  · simp only [hθ, if_pos]
    refine ⟨a1.trans ⟨_, rfl⟩, a2, ?_⟩
    have hfl : (flushContent θ (acceptContent cap c s)).flushes =
        (acceptContent cap c s).flushes + 1 := rfl
    omega
  · simp only [hθ, if_neg, ite_false]
    exact ⟨a1, a2, a3⟩

theorem contentFold_mono {α : Type} (θ cap : ℕ) (chunks : List (List α))
    (s : ContentState α) :
    s.consumed <+: (chunks.foldl (fun s c => processContent θ cap c s) s).consumed ∧
      s.accepted <+: (chunks.foldl (fun s c => processContent θ cap c s) s).accepted ∧
      s.flushes ≤ (chunks.foldl (fun s c => processContent θ cap c s) s).flushes := by
  induction chunks generalizing s with
  | nil => exact ⟨List.prefix_rfl, List.prefix_rfl, le_refl _⟩
  | cons c rest ih =>
      obtain ⟨m1, m2, m3⟩ := contentStep_mono θ cap c s
      obtain ⟨r1, r2, r3⟩ := ih (processContent θ cap c s)
      exact ⟨m1.trans r1, m2.trans r2, m3.trans r3⟩

theorem prefix_of_prefix_of_length_le {α : Type} {l₁ l₂ l₃ : List α}
    (h1 : l₁ <+: l₃) (h2 : l₂ <+: l₃) (hle : l₁.length ≤ l₂.length) : l₁ <+: l₂ := by
  have e1 : l₁ = l₃.take l₁.length := List.prefix_iff_eq_take.mp h1
  have e2 : l₂ = l₃.take l₂.length := List.prefix_iff_eq_take.mp h2
  rw [e1, e2]
  exact List.take_isPrefix_take.mpr (Or.inl hle)

end Worklet

/-- C4: over runs of the worklet with an integral frame consumption `θ`
(`θ = bufferSize * R / T`, e.g. `12288` at 48000 Hz) and buffer capacity
`cap = bufferSize * 4 ≤ 2θ`: a flush moves the unconsumed samples (those
past position `θ`) to the front of the buffer and decrements the index by
`θ`; the samples consumed so far followed by the retained buffer are exactly
the accepted input (flush discards nothing); and every sample retained by
the latest flush is consumed by the next full frame: whenever a later run
extension performs another flush, the whole retained buffer has moved into
the consumed log. -/
theorem flush_retains_partial_frame {α : Type} (θ cap : ℕ) (hcap : cap ≤ θ + θ)
    (chunks chunks' : List (List α)) :
    (θ ≤ (Worklet.runContent θ cap chunks).buf.length →
        (Worklet.flushContent θ (Worklet.runContent θ cap chunks)).buf =
            (Worklet.runContent θ cap chunks).buf.drop θ ∧
          (Worklet.flushContent θ (Worklet.runContent θ cap chunks)).buf.length =
            (Worklet.runContent θ cap chunks).buf.length - θ ∧
          (Worklet.flushContent θ (Worklet.runContent θ cap chunks)).consumed =
            (Worklet.runContent θ cap chunks).consumed ++
              (Worklet.runContent θ cap chunks).buf.take θ) ∧
      (Worklet.runContent θ cap chunks).consumed ++ (Worklet.runContent θ cap chunks).buf =
        (Worklet.runContent θ cap chunks).accepted ∧
      ((Worklet.runContent θ cap chunks).lastWasFlush = true →
        (Worklet.runContent θ cap chunks).flushes <
            (Worklet.runContent θ cap (chunks ++ chunks')).flushes →
          (Worklet.runContent θ cap chunks).consumed ++ (Worklet.runContent θ cap chunks).buf <+:
            (Worklet.runContent θ cap (chunks ++ chunks')).consumed) := by
  obtain ⟨h1, h2, h3, h4⟩ := Worklet.contentInv_run (α := α) θ cap chunks
  refine ⟨fun hθ => ⟨rfl, by simp [Worklet.flushContent], rfl⟩, h1, fun hlf hfl => ?_⟩
  set s := Worklet.runContent θ cap chunks with hs
  have hext : Worklet.runContent θ cap (chunks ++ chunks') =
      chunks'.foldl (fun s c => Worklet.processContent θ cap c s) s := by
    unfold Worklet.runContent
    rw [List.foldl_append]
    rfl
  set s2 := Worklet.runContent θ cap (chunks ++ chunks') with hs2
  obtain ⟨g1, g2, _, _⟩ := Worklet.contentInv_run (α := α) θ cap (chunks ++ chunks')
  obtain ⟨_, macc, _⟩ := Worklet.contentFold_mono θ cap chunks' s
  rw [← hext] at macc
  have hpref1 : s.consumed ++ s.buf <+: s2.accepted := h1 ▸ macc
  have hpref2 : s2.consumed <+: s2.accepted := ⟨s2.buf, g1⟩
  have hbufθ : s.buf.length ≤ θ := by
    have := h4 hlf
    omega
  have hlen : (s.consumed ++ s.buf).length ≤ s2.consumed.length := by
    rw [List.length_append, h2, g2]
    have hmul : θ * (s.flushes + 1) ≤ θ * s2.flushes := Nat.mul_le_mul_left θ hfl
    calc θ * s.flushes + s.buf.length ≤ θ * s.flushes + θ := by omega
      _ = θ * (s.flushes + 1) := by ring
      _ ≤ θ * s2.flushes := hmul
  exact Worklet.prefix_of_prefix_of_length_le hpref1 hpref2 hlen

/-- Witness for C4 with `θ = 2`, `cap = 4`: after processing `[1,2,3,4]` the
buffer retains `[3,4]` from the flush, and the extension `[[5]]` performs
another flush that consumes the retained samples. -/
theorem flush_retains_partial_frame_witness :
    ((4 : ℕ) ≤ 2 + 2 ∧
        2 ≤ (Worklet.runContent 2 4 [[1, 2, 3, 4]]).buf.length ∧
        (Worklet.runContent 2 4 [[1, 2, 3, 4]]).lastWasFlush = true ∧
        (Worklet.runContent 2 4 [[1, 2, 3, 4]]).flushes <
          (Worklet.runContent 2 4 ([[1, 2, 3, 4]] ++ [[5]])).flushes) ∧
      (Worklet.flushContent 2 (Worklet.runContent 2 4 [[1, 2, 3, 4]])).buf =
          (Worklet.runContent 2 4 [[(1 : ℕ), 2, 3, 4]]).buf.drop 2 ∧
      (Worklet.runContent 2 4 [[(1 : ℕ), 2, 3, 4]]).consumed ++
          (Worklet.runContent 2 4 [[1, 2, 3, 4]]).buf <+:
        (Worklet.runContent 2 4 ([[1, 2, 3, 4]] ++ [[5]])).consumed := by
  have h := flush_retains_partial_frame (α := ℕ) 2 4 (by decide) [[1, 2, 3, 4]] [[5]]
  exact ⟨⟨by decide, by decide, by decide, by decide⟩,
    (h.1 (by decide)).1, h.2.2 (by decide) (by decide)⟩

/-- C7 counterexample: the send path does drop audio when the worklet's
internal buffer lacks space.  A single `process` call delivering a chunk of
16385 samples (one more than the 16384-sample buffer) fails the guard
`this._index + c.length <= this._buffer.length` and the chunk is silently
discarded: nothing is accumulated. -/
theorem send_path_drop_counterexample :
    (Worklet.runCount 48000 [16385]).totalInput = 16385 ∧
      (Worklet.runCount 48000 [16385]).accepted = 0 ∧
      (Worklet.runCount 48000 [16385]).droppedAny = true := by decide

/-- C7 (amended): a microphone chunk delivered to `process` is accumulated
into the internal buffer exactly when it fits
(`_index + c.length ≤ bufferSize * 4`); a chunk that does not fit is
silently discarded — the buffered index, the accepted count and the
drop flag witness this on both branches. -/
theorem send_path_accumulates_iff_fits (R : ℕ) (len : ℕ) (s : Worklet.CountState) :
    (s.idxT + ((len * TARGET_SAMPLE_RATE : ℕ) : ℤ) ≤
        ((Worklet.capacity * TARGET_SAMPLE_RATE : ℕ) : ℤ) →
      (Worklet.processCount R len s).accepted = s.accepted + len ∧
        (Worklet.processCount R len s).droppedAny = s.droppedAny) ∧
      (¬ s.idxT + ((len * TARGET_SAMPLE_RATE : ℕ) : ℤ) ≤
          ((Worklet.capacity * TARGET_SAMPLE_RATE : ℕ) : ℤ) →
        (Worklet.processCount R len s).accepted = s.accepted ∧
          (Worklet.processCount R len s).totalInput = s.totalInput + len ∧
          (Worklet.processCount R len s).droppedAny = true) := by
  unfold Worklet.processCount Worklet.maybeFlush Worklet.acceptChunk Worklet.flushCount
  constructor
  · intro hfit
    simp only [hfit, if_pos]
    split <;> exact ⟨rfl, rfl⟩
  · intro hfit
    simp only [hfit, if_neg, ite_false]
    split <;> exact ⟨rfl, rfl, rfl⟩

/-- Witness for C7 (amended) at concrete inputs: a 128-sample chunk on the
empty buffer is accepted; a 20000-sample chunk on the empty buffer is not. -/
theorem send_path_accumulates_iff_fits_witness :
    ((Worklet.initCount.idxT + ((128 * TARGET_SAMPLE_RATE : ℕ) : ℤ) ≤
          ((Worklet.capacity * TARGET_SAMPLE_RATE : ℕ) : ℤ)) ∧
        (Worklet.processCount 48000 128 Worklet.initCount).accepted =
          Worklet.initCount.accepted + 128) ∧
      ((¬ Worklet.initCount.idxT + ((20000 * TARGET_SAMPLE_RATE : ℕ) : ℤ) ≤
          ((Worklet.capacity * TARGET_SAMPLE_RATE : ℕ) : ℤ)) ∧
        (Worklet.processCount 48000 20000 Worklet.initCount).droppedAny = true) := by
  refine ⟨⟨by decide, ?_⟩, ⟨by decide, ?_⟩⟩
  · exact ((send_path_accumulates_iff_fits 48000 128 Worklet.initCount).1 (by decide)).1
  · exact (((send_path_accumulates_iff_fits 48000 20000 Worklet.initCount).2 (by decide)).2).2

/-! Part: Session manager

Embedding of `connect` / `disconnect` and the session callbacks of
src/src/components/gemini/GeminiContext.tsx (lines 157-233), with session
handles numbered by creation order.  `openSessions` tracks which sessions
are currently open against the remote service (a session leaves it when
`close()` is called on it or when the remote side closes it, which is what
fires the `onclose` callback). -/

namespace SessionM

structure SessionState where
  /-- Source: `connectingRef.current`. -/
  connecting : Bool
  /-- whether `genAIRef.current` is set. -/
  hasGenAI : Bool
  /-- Source: `sessionRef.current` (the id of the session handle it points to). -/
  session : Option ℕ
  /-- Source: `isSetupComplete`. -/
  isSetupComplete : Bool
  /-- Source: `isConnected`. -/
  isConnected : Bool
  /-- ids of sessions currently open against the remote service. -/
  openSessions : List ℕ
  /-- next fresh session id. -/
  nextId : ℕ
  deriving Repr, DecidableEq

def initSession : SessionState :=
  { connecting := false, hasGenAI := true, session := none, isSetupComplete := false,
    isConnected := false, openSessions := [], nextId := 0 }

/-- Source: `sessionRef.current.close()`: the referenced session stops being open. -/
def closeCurrent (s : SessionState) : SessionState :=
  match s.session with
  | some sid => { s with openSessions := s.openSessions.erase sid }
  | none => s

/-- Source: `connect()` (GeminiContext.tsx lines 157-223).  Guards: return `false`
while a connection attempt is in flight or without a client; return `true`
at once when a set-up session already exists.  Otherwise set the in-flight
flag, close any previous session handle, and `await live.connect` — which
either yields a fresh session (stored in `sessionRef`, returning `true`;
`connectingRef` stays set until the `onopen` callback) or throws (the
`catch` resets the flags and returns `false`).  The parameter `succeed`
is the outcome of the awaited `live.connect`. -/
def connect (succeed : Bool) (s : SessionState) : SessionState × Bool :=
  if s.connecting then (s, false)
  else if !s.hasGenAI then (s, false)
  else if s.session.isSome && s.isSetupComplete then (s, true)
  else
    let s1 := closeCurrent { s with connecting := true }
    if succeed then
      ({ s1 with
          session := some s1.nextId
          openSessions := s1.openSessions ++ [s1.nextId]
          nextId := s1.nextId + 1 }, true)
    else
      ({ s1 with isConnected := false, isSetupComplete := false, connecting := false }, false)

/-- The `onopen` callback (lines 173-177). -/
def onOpen (s : SessionState) : SessionState :=
  { s with isConnected := true, connecting := false }

/-- The `onerror` callback (lines 200-204). -/
def onError (s : SessionState) : SessionState :=
  { s with isConnected := false, connecting := false }

/-- The remote session closes (so it is no longer open) and the `onclose`
callback (lines 205-210) resets the flags. -/
def onClose (s : SessionState) : SessionState :=
  { closeCurrent s with isConnected := false, isSetupComplete := false, connecting := false }

/-- Source: `disconnect()` (lines 225-233). -/
def disconnect (s : SessionState) : SessionState :=
  { closeCurrent s with
    session := none, isConnected := false, isSetupComplete := false, connecting := false }

/-- The `setupComplete` branch of the `onmessage` callback (line 186). -/
def onSetupComplete (s : SessionState) : SessionState :=
  { s with isSetupComplete := true }

inductive SessionEvent where
  | connectCall (succeed : Bool)
  | opened
  | errored
  | closed
  | disconnectCall
  | setupMsg
  deriving Repr, DecidableEq

def sessionStep (s : SessionState) : SessionEvent → SessionState
  | .connectCall b => (connect b s).1
  | .opened => onOpen s
  | .errored => onError s
  | .closed => onClose s
  | .disconnectCall => disconnect s
  | .setupMsg => onSetupComplete s

def sessionRun (events : List SessionEvent) : SessionState :=
  events.foldl sessionStep initSession

/-- Inductive invariant: the client handle exists, at most one session is
open, and every open session is the one `sessionRef` points to. -/
def SessionInv (s : SessionState) : Prop :=
  s.hasGenAI = true ∧ s.openSessions.length ≤ 1 ∧
    ∀ x ∈ s.openSessions, s.session = some x

theorem sessionInv_init : SessionInv initSession := by
  refine ⟨rfl, by simp [initSession], ?_⟩
  simp [initSession]

theorem closeCurrent_open (s : SessionState) (hs : SessionInv s) :
    (closeCurrent s).openSessions = [] := by
  obtain ⟨_, hlen, hmem⟩ := hs
  unfold closeCurrent
  cases hses : s.session with
  | none =>
      cases hop : s.openSessions with
      | nil => rfl
      | cons x t =>
          exfalso
          have := hmem x (by simp [hop])
          rw [hses] at this
          exact Option.noConfusion this
  | some sid =>
      cases hop : s.openSessions with
      | nil => simp [hop]
      | cons x t =>
          have hx : x = sid := by
            have := hmem x (by simp [hop])
            rw [hses] at this
            exact (Option.some_injective _ this.symm)
          have ht : t = [] := by
            rw [hop] at hlen
            simpa using hlen
          simp [hop, hx, ht, List.erase_cons]

theorem closeCurrent_hasGenAI (s : SessionState) :
    (closeCurrent s).hasGenAI = s.hasGenAI := by
  unfold closeCurrent; cases s.session <;> rfl

theorem closeCurrent_nextId (s : SessionState) :
    (closeCurrent s).nextId = s.nextId := by
  unfold closeCurrent; cases s.session <;> rfl

theorem sessionInv_closeCurrent (s : SessionState) (hs : SessionInv s) :
    SessionInv (closeCurrent s) := by
  have h := closeCurrent_open s hs
  refine ⟨?_, by simp [h], by simp [h]⟩
  rw [closeCurrent_hasGenAI]
  exact hs.1

theorem sessionInv_connect (b : Bool) (s : SessionState) (hs : SessionInv s) :
    SessionInv (connect b s).1 := by
  obtain ⟨hga, hlen, hmem⟩ := hs
  unfold connect
  by_cases hc : s.connecting = true
  · rw [if_pos hc]
    exact ⟨hga, hlen, hmem⟩
  · rw [if_neg hc, if_neg (by simp [hga])]
    by_cases hset : (s.session.isSome && s.isSetupComplete) = true
    · rw [if_pos hset]
      exact ⟨hga, hlen, hmem⟩
    · rw [if_neg hset]
      have hopen : (closeCurrent { s with connecting := true }).openSessions = [] := by
        apply closeCurrent_open
        exact ⟨hga, by simpa using hlen, by simpa using hmem⟩
      cases b with
      | true =>
          refine ⟨?_, ?_, ?_⟩
          · simpa [closeCurrent_hasGenAI] using hga
          · simp [hopen]
          · simp [hopen]
      | false =>
          refine ⟨?_, ?_, ?_⟩
          · simpa [closeCurrent_hasGenAI] using hga
          · simp [hopen]
          · simp [hopen]

theorem sessionInv_step (s : SessionState) (e : SessionEvent) (hs : SessionInv s) :
    SessionInv (sessionStep s e) := by
  obtain ⟨hga, hlen, hmem⟩ := hs
  cases e with
  | connectCall b => exact sessionInv_connect b s ⟨hga, hlen, hmem⟩
  | opened => exact ⟨hga, hlen, hmem⟩
  | errored => exact ⟨hga, hlen, hmem⟩
  | closed =>
      have h := closeCurrent_open s ⟨hga, hlen, hmem⟩
      have hga' := (sessionInv_closeCurrent s ⟨hga, hlen, hmem⟩).1
      exact ⟨hga', by simp [sessionStep, onClose, h], by simp [sessionStep, onClose, h]⟩
  | disconnectCall =>
      have h := closeCurrent_open s ⟨hga, hlen, hmem⟩
      have hga' := (sessionInv_closeCurrent s ⟨hga, hlen, hmem⟩).1
      exact ⟨hga', by simp [sessionStep, disconnect, h], by simp [sessionStep, disconnect, h]⟩
  | setupMsg => exact ⟨hga, hlen, hmem⟩

theorem sessionInv_run (events : List SessionEvent) : SessionInv (sessionRun events) := by
  suffices h : ∀ s : SessionState, SessionInv s →
      SessionInv (events.foldl sessionStep s) from h initSession sessionInv_init
  induction events with
  | nil => intro s hs; exact hs
  | cons e rest ih => intro s hs; exact ih _ (sessionInv_step s e hs)

end SessionM

/-- C5: in every reachable state of the session manager, (a) while
`connectingRef` is set, `connect` returns `false` immediately and changes no
state; (b) at most one session is open at any time; and (c) when `connect`
proceeds past its guards while a previous session handle exists, that
session is closed before the new one opens: after the call the open sessions
are exactly the fresh session on success and none on failure. -/
theorem connect_guard_single_session (events : List SessionM.SessionEvent) (b : Bool) :
    ((SessionM.sessionRun events).connecting = true →
        SessionM.connect b (SessionM.sessionRun events) = (SessionM.sessionRun events, false)) ∧
      (SessionM.sessionRun events).openSessions.length ≤ 1 ∧
      (∀ sid : ℕ, (SessionM.sessionRun events).connecting = false →
        (SessionM.sessionRun events).session = some sid →
        (SessionM.sessionRun events).isSetupComplete = false →
        (SessionM.connect b (SessionM.sessionRun events)).1.openSessions =
          (if b then [(SessionM.sessionRun events).nextId] else [])) := by
  have hinv := SessionM.sessionInv_run events
  obtain ⟨hga, hlen, hmem⟩ := hinv
  refine ⟨fun hc => ?_, hlen, fun sid hc hses hsetup => ?_⟩
  · simp [SessionM.connect, hc]
  · have hopen : (SessionM.closeCurrent
        { SessionM.sessionRun events with connecting := true }).openSessions = [] := by
      apply SessionM.closeCurrent_open
      exact ⟨hga, by simpa using hlen, by simpa using hmem⟩
    unfold SessionM.connect
    rw [if_neg (by simp [hc]), if_neg (by simp [hga]), if_neg (by simp [hsetup])]
    cases b with
    | true => simp [hopen, SessionM.closeCurrent_nextId]
    | false => simp [hopen]

/-- Witness for C5: after one successful `connect` call the in-flight flag
is still set (it is cleared only by the `onopen` callback), so a second
`connect` is a no-op returning `false`; and after `connect`–`onopen`–close
the guards pass again and a new `connect` closes the stale handle and opens
exactly one fresh session. -/
theorem connect_guard_single_session_witness :
    ((SessionM.sessionRun [SessionM.SessionEvent.connectCall true]).connecting = true ∧
        SessionM.connect false (SessionM.sessionRun [SessionM.SessionEvent.connectCall true]) =
          (SessionM.sessionRun [SessionM.SessionEvent.connectCall true], false)) ∧
      ((SessionM.sessionRun [SessionM.SessionEvent.connectCall true,
            SessionM.SessionEvent.opened, SessionM.SessionEvent.closed]).connecting = false ∧
        (SessionM.sessionRun [SessionM.SessionEvent.connectCall true,
            SessionM.SessionEvent.opened, SessionM.SessionEvent.closed]).session = some 0 ∧
        (SessionM.connect true (SessionM.sessionRun [SessionM.SessionEvent.connectCall true,
            SessionM.SessionEvent.opened, SessionM.SessionEvent.closed])).1.openSessions = [1]) := by
  refine ⟨⟨by decide, ?_⟩, by decide, by decide, ?_⟩
  · exact (connect_guard_single_session [SessionM.SessionEvent.connectCall true] false).1
      (by decide)
  · have h := (connect_guard_single_session [SessionM.SessionEvent.connectCall true,
        SessionM.SessionEvent.opened, SessionM.SessionEvent.closed] true).2.2 0
      (by decide) (by decide) (by decide)
    simpa using h

/-! Part: Reconnect polling loop

Embedding of the `watch` loop of GeminiContext.tsx lines 235-249:
`while (shouldRun) { if (!paused && !isConnected && !connectingRef.current)
await connect(); await sleep(3000); }`.  One loop iteration observes the
three flags and produces its actions; a run of the loop is the concatenated
actions over the sequence of observed flag states. -/

structure LoopState where
  paused : Bool
  isConnected : Bool
  connecting : Bool
  deriving Repr, DecidableEq

inductive LoopAction where
  | invokeConnect
  | sleep (ms : ℕ)
  deriving Repr, DecidableEq

/-- The loop body's guard: `!paused && !isConnected && !connectingRef.current`. -/
def reconnectCond (s : LoopState) : Bool :=
  !s.paused && !s.isConnected && !s.connecting

/-- One iteration of the `watch` loop. -/
def watchIter (s : LoopState) : List LoopAction :=
  (if reconnectCond s then [LoopAction.invokeConnect] else []) ++ [LoopAction.sleep 3000]

/-- A run of the loop over the flag states it observes at each iteration. -/
def watchRun (states : List LoopState) : List LoopAction :=
  (states.map watchIter).flatten

/-- C6 counterexample: the claim's trigger condition is incomplete — in the
state where the user paused the session (`paused = true`) while disconnected
and not connecting, the loop iteration does NOT invoke `connect`, although
`isConnected` and `connectingRef` are both false. -/
theorem reconnect_loop_pause_counterexample :
    (LoopState.mk true false false).isConnected = false ∧
      (LoopState.mk true false false).connecting = false ∧
      LoopAction.invokeConnect ∉ watchIter (LoopState.mk true false false) := by decide

/-- C6 (amended): in every iteration of the reconnect loop, `connect()` is
invoked exactly when the client is not paused, not connected and not already
connecting; every delay in the loop is the fixed 3000 ms interval (no
backoff); and each iteration ends in exactly one such sleep, so the retry
repeats unboundedly for as long as the loop runs. -/
theorem reconnect_loop_fixed_interval (states : List LoopState) :
    (∀ s ∈ states, (LoopAction.invokeConnect ∈ watchIter s ↔
        (s.paused = false ∧ s.isConnected = false ∧ s.connecting = false))) ∧
      (∀ a ∈ watchRun states, ∀ ms : ℕ, a = LoopAction.sleep ms → ms = 3000) ∧
      (watchRun states).count (LoopAction.sleep 3000) = states.length := by
  refine ⟨fun s _ => ?_, ?_, ?_⟩
  · unfold watchIter reconnectCond
    by_cases hp : s.paused <;> by_cases hc : s.isConnected <;> by_cases hg : s.connecting <;>
      simp [hp, hc, hg]
  · intro a ha ms hms
    subst hms
    unfold watchRun at ha
    rw [List.mem_flatten] at ha
    obtain ⟨l, hl, hal⟩ := ha
    rw [List.mem_map] at hl
    obtain ⟨s, _, rfl⟩ := hl
    unfold watchIter at hal
    by_cases h : reconnectCond s <;> simp [h] at hal <;> omega
  · induction states with
    | nil => rfl
    | cons s rest ih =>
        unfold watchRun at ih ⊢
        simp only [List.map_cons, List.flatten_cons, List.count_append]
        rw [ih]
        unfold watchIter
        by_cases h : reconnectCond s <;>
          simp [h, List.count_cons, List.count_append] <;> omega

/-- Witness for C6 (amended): in the unpaused disconnected idle state the
iteration invokes `connect`, and a one-iteration run sleeps exactly once for
3000 ms. -/
theorem reconnect_loop_fixed_interval_witness :
    LoopAction.invokeConnect ∈ watchIter (LoopState.mk false false false) ∧
      (watchRun [LoopState.mk false false false]).count (LoopAction.sleep 3000) = 1 := by
  have h := reconnect_loop_fixed_interval [LoopState.mk false false false]
  refine ⟨(h.1 (LoopState.mk false false false) (by decide)).mpr ⟨rfl, rfl, rfl⟩, ?_⟩
  simpa using h.2.2

/-! Part: Image upload / removal and the periodic image sender

Embedding of `handleImageUpload` (reader-loaded branch), `removeImage` and
`sendPeriodicImageData` of src/src/app/page.tsx (lines 108-154), together
with the other operations that touch the involved state. -/

structure MediaBlob where
  data : String
  mimeType : Option String
  deriving Repr, DecidableEq

structure ImageAppState where
  /-- Source: `this.currentImageBase64`. -/
  currentImageBase64 : Option String
  /-- Source: `this.currentImageMimeType`. -/
  currentImageMimeType : Option String
  /-- Source: `this.imagePreview.src`. -/
  imagePreviewSrc : String
  /-- whether `this.imagePreviewContainer.style.display` is not `"none"`. -/
  imagePreviewVisible : Bool
  /-- Source: `this.imageUploadInput.value`. -/
  imageUploadValue : String
  /-- whether `this.session` is set. -/
  hasSession : Bool
  /-- Source: `this.isRecording`. -/
  isRecording : Bool
  deriving Repr, DecidableEq

/-- JavaScript truthiness of a nullable string (null and `""` are falsy),
as used by `!this.currentImageBase64`. -/
def jsTruthy : Option String → Bool
  | none => false
  | some s => !s.isEmpty

/-- Source: `removeImage()` (page.tsx lines 130-137). -/
def removeImage (s : ImageAppState) : ImageAppState :=
  { s with
    currentImageBase64 := none
    currentImageMimeType := none
    imagePreviewSrc := "#"
    imagePreviewVisible := false
    imageUploadValue := "" }

/-- The `reader.onload` completion of `handleImageUpload` (lines 119-126),
with `b64` the payload after `split(",")[1]` and `full` the data URL. -/
def handleImageUploadLoaded (b64 mime full : String) (s : ImageAppState) : ImageAppState :=
  { s with
    currentImageBase64 := some b64
    currentImageMimeType := some mime
    imagePreviewSrc := full
    imagePreviewVisible := true }

/-- Source: `sendPeriodicImageData()` (lines 150-154): returns the blob passed to
`sendRealtimeInput`, or `none` when the guard
`!this.session || !this.isRecording || !this.currentImageBase64` fires. -/
def sendPeriodicImageData (s : ImageAppState) : Option MediaBlob :=
  if !s.hasSession || !s.isRecording || !jsTruthy s.currentImageBase64 then none
  else some { data := s.currentImageBase64.getD "", mimeType := s.currentImageMimeType }

/-- The operations that can run between a `removeImage` and the next upload:
another removal, periodic sends (which mutate nothing), and the session /
recording transitions (connect, cleanup, toggle). -/
inductive ImageOp where
  | upload (b64 mime full : String)
  | remove
  | setRecording (b : Bool)
  | setSession (b : Bool)
  | sendPeriodic
  deriving Repr, DecidableEq

def ImageOp.touchesImage : ImageOp → Bool
  | .upload _ _ _ => true
  | _ => false

def applyImageOp (s : ImageAppState) : ImageOp → ImageAppState
  | .upload b64 mime full => handleImageUploadLoaded b64 mime full s
  | .remove => removeImage s
  | .setRecording b => { s with isRecording := b }
  | .setSession b => { s with hasSession := b }
  | .sendPeriodic => s

theorem applyImageOp_keeps_none (s : ImageAppState) (op : ImageOp)
    (hop : op.touchesImage = false) (hs : s.currentImageBase64 = none) :
    (applyImageOp s op).currentImageBase64 = none := by
  cases op with
  | upload b64 mime full => simp [ImageOp.touchesImage] at hop
  | remove => rfl
  | setRecording b => exact hs
  | setSession b => exact hs
  | sendPeriodic => exact hs

theorem foldImageOps_keeps_none (ops : List ImageOp)
    (hops : ∀ op ∈ ops, op.touchesImage = false) (s : ImageAppState)
    (hs : s.currentImageBase64 = none) :
    (ops.foldl applyImageOp s).currentImageBase64 = none := by
  induction ops generalizing s with
  | nil => exact hs
  | cons op rest ih =>
      exact ih (fun o ho => hops o (List.mem_cons_of_mem op ho)) _
        (applyImageOp_keeps_none s op (hops op (List.mem_cons_self op rest)) hs)

theorem sendPeriodic_none_of_no_image (s : ImageAppState)
    (hs : s.currentImageBase64 = none) : sendPeriodicImageData s = none := by
  unfold sendPeriodicImageData
  rw [hs]
  simp [jsTruthy]

/-- C8: `removeImage` clears the payload and the preview — both image fields
become `null`, the preview container is hidden and its `src` reset — and
every subsequent `sendPeriodicImageData` sends nothing (the guard returns
before `sendRealtimeInput`) across any sequence of non-upload operations,
until a new image is uploaded. -/
theorem removeImage_clears_payload (s : ImageAppState) (ops : List ImageOp)
    (hops : ∀ op ∈ ops, op.touchesImage = false) :
    (removeImage s).currentImageBase64 = none ∧
      (removeImage s).currentImageMimeType = none ∧
      (removeImage s).imagePreviewVisible = false ∧
      (removeImage s).imagePreviewSrc = "#" ∧
      sendPeriodicImageData (removeImage s) = none ∧
      sendPeriodicImageData (ops.foldl applyImageOp (removeImage s)) = none := by
  refine ⟨rfl, rfl, rfl, rfl, sendPeriodic_none_of_no_image _ rfl, ?_⟩
  exact sendPeriodic_none_of_no_image _ (foldImageOps_keeps_none ops hops _ rfl)

/-- Witness for C8: a concrete state with a loaded image and a live
recording session, followed by remove and further non-upload operations —
no payload is ever produced. -/
theorem removeImage_clears_payload_witness :
    sendPeriodicImageData
        (removeImage
          { currentImageBase64 := some "aGVsbG8=", currentImageMimeType := some "image/png",
            imagePreviewSrc := "data:image/png;base64,aGVsbG8=", imagePreviewVisible := true,
            imageUploadValue := "photo.png", hasSession := true, isRecording := true }) =
        none ∧
      sendPeriodicImageData
        ([ImageOp.setRecording true, ImageOp.setSession true, ImageOp.sendPeriodic].foldl
          applyImageOp
          (removeImage
            { currentImageBase64 := some "aGVsbG8=", currentImageMimeType := some "image/png",
              imagePreviewSrc := "data:image/png;base64,aGVsbG8=", imagePreviewVisible := true,
              imageUploadValue := "photo.png", hasSession := true, isRecording := true })) =
        none := by
  have h := removeImage_clears_payload
    { currentImageBase64 := some "aGVsbG8=", currentImageMimeType := some "image/png",
      imagePreviewSrc := "data:image/png;base64,aGVsbG8=", imagePreviewVisible := true,
      imageUploadValue := "photo.png", hasSession := true, isRecording := true }
    [ImageOp.setRecording true, ImageOp.setSession true, ImageOp.sendPeriodic]
    (by intro op hop; fin_cases hop <;> rfl)
  exact ⟨h.2.2.2.2.1, h.2.2.2.2.2⟩

/-! Part: Error handling of the recording path

Embedding of `connectToGemini` / `connectToGeminiIfNeeded` /
`startRecording` / `toggleRecording` of src/src/app/page.tsx
(lines 181-329) and of `startRecording` of src/unnamed/part_000
(lines 173-197).  The fallible awaited primitives (`live.connect`,
`getUserMedia`, `initializeAudioSystem`) are parameters carrying their
outcome; a function returns `Except.error` exactly when a JavaScript
exception escapes it. -/

inductive JsError where
  | audioInitError
  | connectError
  | micError
  deriving Repr, DecidableEq

structure RecState where
  /-- Source: `this.session` (id of the session handle). -/
  session : Option ℕ
  isSetupComplete : Bool
  isRecording : Bool
  /-- Source: `this.recordingStatus.textContent`. -/
  recordingStatus : String
  /-- whether the status is shown in the error color. -/
  statusIsError : Bool
  /-- whether mic stream / worklet nodes are attached. -/
  micActive : Bool
  deriving Repr, DecidableEq

def initRec : RecState :=
  { session := none, isSetupComplete := false, isRecording := false,
    recordingStatus := "Ready", statusIsError := false, micActive := false }

/-- Source: `cleanup()` (page.tsx lines 262-270). -/
def cleanupRec (s : RecState) : RecState :=
  { s with isRecording := false, isSetupComplete := false, micActive := false }

/-- Source: `connectToGemini()` (page.tsx lines 186-232): sets the connecting
status, then a `try` block closes any previous session and awaits
`live.connect` (outcome `connectPrim`); the `catch` turns any exception into
the status `"Connection failed."` plus `cleanup()`, returning `false`.  The
`Except` in the result records whether an exception escapes the function. -/
def connectToGemini (connectPrim : Except JsError ℕ) (s : RecState) :
    RecState × Except JsError Bool :=
  let s0 := { s with recordingStatus := "Connecting to Gemini...", statusIsError := false }
  match connectPrim with
  | .ok sid => ({ s0 with session := some sid }, .ok true)
  | .error _ =>
      (cleanupRec { s0 with recordingStatus := "Connection failed.", statusIsError := true },
        .ok false)

/-- Source: `connectToGeminiIfNeeded()` (page.tsx lines 181-184). -/
def connectToGeminiIfNeeded (connectPrim : Except JsError ℕ) (s : RecState) :
    RecState × Except JsError Bool :=
  if s.session.isSome && s.isSetupComplete then (s, .ok true)
  else connectToGemini connectPrim s

/-- Source: `startRecording()` (page.tsx lines 292-320): connect if needed, bail out
with a waiting status unless set up, then a `try` block acquires the
microphone (outcome `micPrim`) and wires the worklet; the `catch` turns any
exception into the status `"Mic error"` and resets the recording flag. -/
def startRecording (connectPrim : Except JsError ℕ) (micPrim : Except JsError Unit)
    (s : RecState) : RecState × Except JsError Unit :=
  match connectToGeminiIfNeeded connectPrim s with
  | (s1, .error e) => (s1, .error e)
  | (s1, .ok connected) =>
      if !connected || !s1.isSetupComplete then
        ({ s1 with recordingStatus := "Waiting for connection setup...", statusIsError := false },
          .ok ())
      else
        match micPrim with
        | .ok _ =>
            ({ s1 with
                micActive := true
                recordingStatus := "Listening..."
                statusIsError := false }, .ok ())
        | .error _ =>
            ({ s1 with
                recordingStatus := "Mic error"
                statusIsError := true
                isRecording := false }, .ok ())

/-- Source: `stopRecording()` (page.tsx lines 322-329). -/
def stopRecording (s : RecState) : RecState :=
  { s with
    isRecording := false
    micActive := false
    recordingStatus := "Call ended."
    statusIsError := false }

/-- Source: `toggleRecording()` (page.tsx lines 281-290):
`await this.initializeAudioSystem()` runs OUTSIDE any try/catch, so an
exception from audio initialisation (outcome `audioInitPrim`) escapes the
function; otherwise toggle between stop and start. -/
def toggleRecording (audioInitPrim : Except JsError Unit) (connectPrim : Except JsError ℕ)
    (micPrim : Except JsError Unit) (s : RecState) : RecState × Except JsError Unit :=
  match audioInitPrim with
  | .error e => (s, .error e)
  | .ok _ =>
      if s.isRecording then (stopRecording s, .ok ())
      else startRecording connectPrim micPrim { s with isRecording := true }

/-- Source: `connectToGemini` of src/unnamed/part_000 (lines 97-130): the whole body
is inside try/catch, the catch sets `"Connection failed."`. -/
def connectToGemini000 (connectPrim : Except JsError ℕ) (s : RecState) :
    RecState × Except JsError Unit :=
  let s0 := { s with recordingStatus := "Connecting to Gemini...", statusIsError := false }
  match connectPrim with
  | .ok sid => ({ s0 with session := some sid }, .ok ())
  | .error _ => ({ s0 with recordingStatus := "Connection failed." }, .ok ())

/-- Source: `startRecording` of src/unnamed/part_000 (lines 173-197): there is NO
try/catch here — `await navigator.mediaDevices.getUserMedia(...)` throws
straight out of the function on permission denial. -/
def startRecording000 (connectPrim : Except JsError ℕ) (micPrim : Except JsError Unit)
    (s : RecState) : RecState × Except JsError Unit :=
  let s1 := (connectToGemini000 connectPrim s).1
  let s2 := { s1 with recordingStatus := "Requesting microphone..." }
  match micPrim with
  | .error e => (s2, .error e)
  | .ok _ =>
      ({ s2 with micActive := true, recordingStatus := "Listening..." }, .ok ())

/-- C9 counterexample: failures do escape.  With a failing audio
initialisation, `toggleRecording` of page.tsx propagates the exception to
its caller (no status is set); and with a failing microphone acquisition,
`startRecording` of part_000 propagates the permission error. -/
theorem error_propagation_counterexample :
    (toggleRecording (Except.error JsError.audioInitError) (Except.ok 0) (Except.ok ())
          initRec).2 = Except.error JsError.audioInitError ∧
      (startRecording000 (Except.ok 0) (Except.error JsError.micError) initRec).2 =
        Except.error JsError.micError := by
  exact ⟨rfl, rfl⟩

/-- C9 (amended): connection failures are caught inside `connectToGemini`
and surface as the status `"Connection failed."` with `false` returned (no
exception escapes it for any outcome of the awaited connect), and
microphone failures are caught inside page.tsx's `startRecording`, which
never lets an exception escape and surfaces `"Mic error"` when the mic
acquisition fails on a set-up session; but audio-initialisation exceptions
escape `toggleRecording` uncaught, and part_000's `startRecording` does not
catch microphone errors (see the counterexample). -/
theorem errors_caught_locally (connectPrim : Except JsError ℕ)
    (micPrim : Except JsError Unit) (s : RecState) :
    (∃ b : Bool, (connectToGemini connectPrim s).2 = Except.ok b) ∧
      (∀ e : JsError, connectPrim = Except.error e →
        (connectToGemini connectPrim s).1.recordingStatus = "Connection failed." ∧
          (connectToGemini connectPrim s).2 = Except.ok false) ∧
      (startRecording connectPrim micPrim s).2 = Except.ok () ∧
      (∀ e : JsError, micPrim = Except.error e → s.session.isSome = true →
        s.isSetupComplete = true →
        (startRecording connectPrim micPrim s).1.recordingStatus = "Mic error") := by
  refine ⟨?_, ?_, ?_, ?_⟩
  · cases connectPrim with
    | ok sid => exact ⟨true, rfl⟩
    | error e => exact ⟨false, rfl⟩
  · intro e he
    subst he
    exact ⟨rfl, rfl⟩
  · unfold startRecording connectToGeminiIfNeeded connectToGemini
    by_cases hg : (s.session.isSome && s.isSetupComplete) = true
    · rw [if_pos hg]
      simp only at hg ⊢
      rcases Bool.and_eq_true_iff.mp hg with ⟨_, hsetup⟩
      cases micPrim <;> simp [hsetup]
    · rw [if_neg hg]
      cases connectPrim with
      | ok sid =>
          cases hset : s.isSetupComplete <;> cases micPrim <;> simp [hset]
      | error e => simp
  · intro e he hses hsetup
    subst he
    unfold startRecording connectToGeminiIfNeeded
    rw [if_pos (by rw [hses, hsetup]; rfl)]
    simp [hsetup]

/-- Witness for C9 (amended) at concrete inputs: a failing connect yields
the `"Connection failed."` status without an escaping exception, and a
failing mic acquisition on a set-up session yields `"Mic error"`. -/
theorem errors_caught_locally_witness :
    ((connectToGemini (Except.error JsError.connectError) initRec).1.recordingStatus =
        "Connection failed." ∧
      (connectToGemini (Except.error JsError.connectError) initRec).2 = Except.ok false) ∧
      (startRecording (Except.ok 7) (Except.error JsError.micError)
          { initRec with session := some 3, isSetupComplete := true }).2 = Except.ok () ∧
      (startRecording (Except.ok 7) (Except.error JsError.micError)
          { initRec with session := some 3, isSetupComplete := true }).1.recordingStatus =
        "Mic error" := by
  have h1 := errors_caught_locally (Except.error JsError.connectError) (Except.ok ()) initRec
  have h2 := errors_caught_locally (Except.ok 7) (Except.error JsError.micError)
    { initRec with session := some 3, isSetupComplete := true }
  exact ⟨h1.2.1 JsError.connectError rfl, h2.2.2.1,
    h2.2.2.2 JsError.micError rfl rfl rfl⟩

/-! Part: 16-bit PCM conversion

Embedding of the conversion in the worklet's `flush`
(GeminiContext.tsx lines 139-142 and src/unnamed/part_000 lines 80-83):
`pcm[i] = Math.max(-1, Math.min(1, o[i])) * 32767` stored into an
`Int16Array`.  Float samples are modelled as exact rationals (the claim
assumes NaN-free inputs); storing into an `Int16Array` applies JavaScript's
`ToInt16`: truncation toward zero followed by wrapping into
`[-32768, 32767]`. -/

/-- JavaScript `ToIntegerOrInfinity` on a finite value: truncation toward
zero. -/
def jsTrunc (q : ℚ) : ℤ :=
  if 0 ≤ q then ⌊q⌋ else ⌈q⌉

/-- Wrap an integer into the `Int16` range, as `Int16Array` storage does. -/
def toInt16 (n : ℤ) : ℤ :=
  (n + 32768) % 65536 - 32768

/-- Source: `Math.max(-1, Math.min(1, x))`. -/
def clampSample (x : ℚ) : ℚ :=
  max (-1) (min 1 x)

/-- The full per-sample conversion `ToInt16(clamp(x) * 32767)`. -/
def pcmOfSample (x : ℚ) : ℤ :=
  toInt16 (jsTrunc (clampSample x * 32767))

theorem clampSample_bounds (x : ℚ) : -1 ≤ clampSample x ∧ clampSample x ≤ 1 := by
  unfold clampSample
  constructor
  · exact le_max_left _ _
  · rcases le_total 1 x with h | h
    · rw [min_eq_left h]
      norm_num
    · rw [min_eq_right h]
      exact max_le (by norm_num) h

theorem jsTrunc_bounds (x : ℚ) :
    -32767 ≤ jsTrunc (clampSample x * 32767) ∧ jsTrunc (clampSample x * 32767) ≤ 32767 := by
  obtain ⟨hlo, hhi⟩ := clampSample_bounds x
  have hlo' : (-32767 : ℚ) ≤ clampSample x * 32767 := by nlinarith
  have hhi' : clampSample x * 32767 ≤ (32767 : ℚ) := by nlinarith
  unfold jsTrunc
  by_cases h : 0 ≤ clampSample x * 32767
  · rw [if_pos h]
    constructor
    · calc (-32767 : ℤ) ≤ 0 := by norm_num
        _ ≤ ⌊clampSample x * 32767⌋ := Int.floor_nonneg.mpr h
    · calc ⌊clampSample x * 32767⌋ ≤ ⌊(32767 : ℚ)⌋ := Int.floor_le_floor hhi'
        _ = 32767 := by norm_num
  · rw [if_neg h]
    constructor
    · have hlo2 : ((-32767 : ℤ) : ℚ) ≤ clampSample x * 32767 := by
        push_cast
        linarith [hlo']
      have hc := Int.ceil_le_ceil hlo2
      rwa [Int.ceil_intCast] at hc
    · have hc := Int.ceil_le_ceil (le_of_not_le h)
      rw [Int.ceil_zero] at hc
      omega

theorem toInt16_eq_self (n : ℤ) (hlo : -32768 ≤ n) (hhi : n ≤ 32767) : toInt16 n = n := by
  unfold toInt16
  rw [Int.emod_eq_of_lt (by omega) (by omega)]
  omega

/-- C10: every 16-bit PCM sample emitted by the capture worklet lies in
`[-32767, 32767]`: the float sample is clamped to `[-1, 1]` and scaled by
`32767` before the `Int16` store, so the conversion never wraps and `-32768`
is never produced — for every (NaN-free) input, including values outside
`[-1, 1]`. -/
theorem pcm_sample_range (x : ℚ) :
    -32767 ≤ pcmOfSample x ∧ pcmOfSample x ≤ 32767 ∧ pcmOfSample x ≠ -32768 := by
  obtain ⟨hlo, hhi⟩ := jsTrunc_bounds x
  unfold pcmOfSample
  rw [toInt16_eq_self _ (by omega) hhi]
  exact ⟨hlo, hhi, by omega⟩

end Spec2Proof
